import Mathlib

/-!
Verification of `src/03_eigenvalue_solver_demo.py` from the
shear-layer instability study repository.

The Python module builds a 1D diffusion operator by second-order central
differences (`build_1d_operator`), enforces homogeneous Dirichlet boundary
conditions by overwriting the two boundary rows with unit rows, solves for
the dominant eigenvalues through `scipy.sparse.linalg.eigs`
(`run_arnoldi_solver`), and in its `__main__` block filters the
boundary-condition artifact eigenvalues (real part within 1e-4 of 1.0)
before classifying each remaining mode as STABLE or UNSTABLE by the sign of
the real part.

The embedding below models matrix entries as exact rationals (`ℚ`), a
matrix as a function `ℕ → ℕ → ℚ` whose meaningful entries are the indices
below the grid size `N`, complex eigenvalues as pairs of rationals, and the
external ARPACK routine `eigs` as an explicit parameter that either returns
a list of eigenvalues or fails with an exception message; the Python
exceptions that `build_1d_operator` can actually raise are modelled by an
explicit error type.
-/

namespace ShearLayer

/-- A real matrix, indexed by natural numbers; only the entries with both
indices below the grid size `N` represent the N-by-N scipy matrix. -/
abbrev Mat := ℕ → ℕ → ℚ

/-- A complex eigenvalue, as returned by `eigs`: real and imaginary part. -/
structure Cplx where
  re : ℚ
  im : ℚ
  deriving DecidableEq, Repr

/-- The Python exceptions reachable from `build_1d_operator`, together with
the `InvalidGridError` named by the specification (which the code never
raises, but which must be expressible to settle the claims about it). -/
inductive PyError where
  | zeroDivisionError
  | valueError
  | invalidGridError
  deriving DecidableEq, Repr

/-- The unscaled 3-point Laplacian stencil matrix assembled by
`diags([main_diag, off_diag, off_diag], [0, -1, 1])`: main diagonal `-2`,
first sub- and super-diagonal `1`, all other entries `0`. -/
def stencil : Mat := fun i j =>
  if i = j then -2
  else if i + 1 = j ∨ j + 1 = i then 1
  else 0

/-- Scalar multiplication of a matrix, `A * (nu / dx**2)` in the source. -/
def smul_mat (c : ℚ) (A : Mat) : Mat := fun i j => c * A i j

/-- The row overwrite `A[r, :] = 0.0; A[r, r] = 1.0`: row `r` becomes the
`r`-th unit row, all other rows are untouched. -/
def set_unit_row (r : ℕ) (A : Mat) : Mat := fun i j =>
  if i = r then (if j = r then 1 else 0) else A i j

/-- The boundary-condition block of `build_1d_operator` (source lines 43-49):
first the left wall (row 0), then the right wall (row `N-1`,
written `A[-1, :]` in the source). -/
def apply_dirichlet (N : ℕ) (A : Mat) : Mat :=
  set_unit_row (N - 1) (set_unit_row 0 A)

/-- `build_1d_operator(N, L, nu)`.  The Python function performs no
parameter validation: for `N = 1` the line `dx = L / (N - 1)` raises
`ZeroDivisionError`; for `N = 0` the line `np.ones(N - 1)` raises
`ValueError` (negative array size); for `L = 0` (with `N ≥ 2`) the scaling
`nu / dx**2` divides by zero and raises `ZeroDivisionError`.  In every
other case it returns the scaled stencil with the two boundary rows
overwritten. -/
def build_1d_operator (N : ℕ) (L nu : ℚ) : Except PyError Mat :=
  if N = 1 then Except.error PyError.zeroDivisionError
  else if N = 0 then Except.error PyError.valueError
  else if L = 0 then Except.error PyError.zeroDivisionError
  else Except.ok (apply_dirichlet N (smul_mat (nu / (L / ((N : ℚ) - 1)) ^ 2) stencil))

/-- The result of one call to `scipy.sparse.linalg.eigs`: either the list
of computed eigenvalues, or an exception (e.g. `ArpackNoConvergence`)
carrying its message. -/
abbrev EigsResult := Except String (List Cplx)

/-- `run_arnoldi_solver(A, k)` (source lines 53-65).  The external solver
`eigs` is passed explicitly and threads the matrix state, so that mutation
of `A` by the callee is expressible; the `try/except` block returns the
eigenvalues on success and `None` on any exception — the exception is
caught, printed, and never re-raised. -/
def run_arnoldi_solver (eigs : Mat → ℕ → EigsResult × Mat) (A : Mat) (k : ℕ) :
    Option (List Cplx) × Mat :=
  match eigs A k with
  | (Except.ok vals, A2) => (some vals, A2)
  | (Except.error _, A2) => (none, A2)

/-- The stability label computed in the `__main__` block:
`status = "STABLE" if sigma_r < 0 else "UNSTABLE"`. -/
inductive Stability where
  | STABLE
  | UNSTABLE
  deriving DecidableEq, Repr

/-- `"STABLE" if sigma_r < 0 else "UNSTABLE"` (source line 89). -/
def classify (sigma_r : ℚ) : Stability :=
  if sigma_r < 0 then Stability.STABLE else Stability.UNSTABLE

/-- One reported mode: enumeration index, growth rate `sigma_r = ev.real`,
frequency `freq = ev.imag`, and stability label. -/
structure Eigenmode where
  index : ℕ
  sigma_r : ℚ
  freq : ℚ
  status : Stability
  deriving DecidableEq, Repr

/-- The spectrum visible to the user, as produced by the `__main__` report
loop (source lines 84-90): enumerate the eigenvalues, keep those with
`abs(ev.real - 1.0) > 1e-4` (dropping the dummy boundary-condition modes),
and classify each kept mode by the sign of its real part. -/
def visible_spectrum (vals : List Cplx) : List Eigenmode :=
  (vals.enum.filter fun p => decide ((1 : ℚ) / 10000 < |p.2.re - 1|)).map
    fun p => ⟨p.1, p.2.re, p.2.im, classify p.2.re⟩

/-- The `__main__` pipeline: build the operator, then run the solver;
an exception from `build_1d_operator` propagates (there is no handler),
and a solver failure yields `none`. -/
def pipeline (eigs : Mat → ℕ → EigsResult × Mat) (N : ℕ) (L nu : ℚ) (k : ℕ) :
    Except PyError (Option (List Cplx)) :=
  match build_1d_operator N L nu with
  | Except.ok A => Except.ok (run_arnoldi_solver eigs A k).1
  | Except.error e => Except.error e

/-! ## Helper lemmas shared by several theorems -/

/-- Interior rows are untouched by the boundary overwrite. -/
theorem apply_dirichlet_interior (N : ℕ) (A : Mat) (i j : ℕ)
    (h0 : i ≠ 0) (h1 : i ≠ N - 1) :
    apply_dirichlet N A i j = A i j := by
  unfold apply_dirichlet set_unit_row
  simp [h0, h1]

/-- On valid parameters, `build_1d_operator` returns exactly the
boundary-enforced scaled stencil. -/
theorem build_1d_operator_ok_eq (N : ℕ) (L nu : ℚ) (A : Mat)
    (hN1 : N ≠ 1) (hN0 : N ≠ 0) (hL0 : L ≠ 0)
    (hA : build_1d_operator N L nu = Except.ok A) :
    A = apply_dirichlet N (smul_mat (nu / (L / ((N : ℚ) - 1)) ^ 2) stencil) := by
  unfold build_1d_operator at hA
  rw [if_neg hN1, if_neg hN0, if_neg hL0] at hA
  exact (Except.ok.inj hA).symm

/-! ## Claims -/

/-- C4: after Dirichlet boundary enforcement, for every `N ≥ 2`, every prior
matrix content and every column `j < N`, row 0 is the unit row `[1,0,…,0]`
and row `N-1` is the unit row `[0,…,0,1]`. -/
theorem apply_dirichlet_boundary_rows (N : ℕ) (A : Mat) (j : ℕ)
    (hN : 2 ≤ N) (hj : j < N) :
    (apply_dirichlet N A 0 j = if j = 0 then 1 else 0) ∧
    (apply_dirichlet N A (N - 1) j = if j = N - 1 then 1 else 0) := by
  unfold apply_dirichlet set_unit_row
  have h0 : (0 : ℕ) ≠ N - 1 := by omega
  constructor
  · simp [h0]
  · simp

/-- Witness for C4 at `N = 3`, `A = stencil`, `j = 1`. -/
theorem apply_dirichlet_boundary_rows_witness :
    (apply_dirichlet 3 stencil 0 1 = if (1 : ℕ) = 0 then 1 else 0) ∧
    (apply_dirichlet 3 stencil (3 - 1) 1 = if (1 : ℕ) = 3 - 1 then 1 else 0) :=
  apply_dirichlet_boundary_rows 3 stencil 1 (by decide) (by decide)

/-- C7: the Dirichlet boundary overwrite is idempotent — applying it to an
already-enforced operator changes no entry. -/
theorem apply_dirichlet_idempotent (N : ℕ) (A : Mat) :
    apply_dirichlet N (apply_dirichlet N A) = apply_dirichlet N A := by
  funext i j
  unfold apply_dirichlet set_unit_row
  by_cases h1 : i = N - 1 <;> by_cases h0 : i = 0 <;> simp [h0, h1]

/-- C5: for every `N ≥ 3`, `L > 0` and `nu`, the operator built with
`dx = L/(N-1)` has interior rows (`1 ≤ i ≤ N-2`) carrying the 3-point
stencil: main-diagonal coefficient `-2` and adjacent off-diagonal
coefficients `+1`, each scaled by `nu/dx²`; every other entry of the row is
zero, and the row sums to zero. -/
theorem build_1d_operator_interior_stencil (N : ℕ) (L nu : ℚ) (i : ℕ) (A : Mat)
    (hN : 3 ≤ N) (hL : 0 < L) (hi1 : 1 ≤ i) (hi2 : i ≤ N - 2)
    (hA : build_1d_operator N L nu = Except.ok A) :
    A i i = -2 * (nu / (L / ((N : ℚ) - 1)) ^ 2) ∧
    A i (i - 1) = nu / (L / ((N : ℚ) - 1)) ^ 2 ∧
    A i (i + 1) = nu / (L / ((N : ℚ) - 1)) ^ 2 ∧
    (∀ j, j ≠ i - 1 → j ≠ i → j ≠ i + 1 → A i j = 0) ∧
    ∑ j in Finset.range N, A i j = 0 := by
  have hAeq := build_1d_operator_ok_eq N L nu A (by omega) (by omega) (ne_of_gt hL) hA
  subst hAeq
  have hi0 : i ≠ 0 := by omega
  have hiN : i ≠ N - 1 := by omega
  set c : ℚ := nu / (L / ((N : ℚ) - 1)) ^ 2 with hc
  have hrow : ∀ j, apply_dirichlet N (smul_mat c stencil) i j = c * stencil i j :=
    fun j => apply_dirichlet_interior N _ i j hi0 hiN
  have hd : stencil i i = -2 := by unfold stencil; simp
  have hsub : stencil i (i - 1) = 1 := by
    unfold stencil
    have h1 : ¬ i = i - 1 := by omega
    have h2 : i + 1 = i - 1 ∨ (i - 1) + 1 = i := by omega
    rw [if_neg h1, if_pos h2]
  have hsup : stencil i (i + 1) = 1 := by
    unfold stencil
    have h1 : ¬ i = i + 1 := by omega
    have h2 : i + 1 = i + 1 ∨ (i + 1) + 1 = i := by omega
    rw [if_neg h1, if_pos h2]
  have hzero : ∀ j, j ≠ i - 1 → j ≠ i → j ≠ i + 1 → stencil i j = 0 := by
    intro j hj1 hj2 hj3
    unfold stencil
    have h1 : ¬ i = j := by omega
    have h2 : ¬ (i + 1 = j ∨ j + 1 = i) := by omega
    rw [if_neg h1, if_neg h2]
  refine ⟨?_, ?_, ?_, ?_, ?_⟩
  · rw [hrow, hd]; ring
  · rw [hrow, hsub]; ring
  · rw [hrow, hsup]; ring
  · intro j hj1 hj2 hj3
    rw [hrow, hzero j hj1 hj2 hj3, mul_zero]
  · have hsubset : ({i - 1, i, i + 1} : Finset ℕ) ⊆ Finset.range N := by
      intro x hx
      simp only [Finset.mem_insert, Finset.mem_singleton] at hx
      simp only [Finset.mem_range]
      omega
    have hout : ∀ x ∈ Finset.range N, x ∉ ({i - 1, i, i + 1} : Finset ℕ) →
        apply_dirichlet N (smul_mat c stencil) i x = 0 := by
      intro x _ hx
      simp only [Finset.mem_insert, Finset.mem_singleton] at hx
      push_neg at hx
      rw [hrow, hzero x hx.1 hx.2.1 hx.2.2, mul_zero]
    rw [← Finset.sum_subset hsubset hout]
    have hm1 : i - 1 ∉ ({i, i + 1} : Finset ℕ) := by
      simp only [Finset.mem_insert, Finset.mem_singleton]
      omega
    have hm2 : i ∉ ({i + 1} : Finset ℕ) := by
      simp only [Finset.mem_singleton]
      omega
    rw [Finset.sum_insert hm1, Finset.sum_insert hm2, Finset.sum_singleton,
        hrow, hrow, hrow, hd, hsub, hsup]
    ring

/-- C10: for `N ≥ 3`, `L > 0` and `nu ≠ 0`, the boundary decoupling is
row-only — the matrix keeps the coefficient `nu/dx²` at entries `(1, 0)`
and `(N-2, N-1)`, that coefficient is nonzero, and the matrix is not
symmetric (entry `(0, 1)` differs from entry `(1, 0)`). -/
theorem build_1d_operator_row_only_decoupling (N : ℕ) (L nu : ℚ) (A : Mat)
    (hN : 3 ≤ N) (hL : 0 < L) (hnu : nu ≠ 0)
    (hA : build_1d_operator N L nu = Except.ok A) :
    A 1 0 = nu / (L / ((N : ℚ) - 1)) ^ 2 ∧
    A (N - 2) (N - 1) = nu / (L / ((N : ℚ) - 1)) ^ 2 ∧
    A 1 0 ≠ 0 ∧
    A 0 1 ≠ A 1 0 := by
  have hAeq := build_1d_operator_ok_eq N L nu A (by omega) (by omega) (ne_of_gt hL) hA
  subst hAeq
  set c : ℚ := nu / (L / ((N : ℚ) - 1)) ^ 2 with hc
  have hcast : ((N : ℚ) - 1) ≠ 0 := by
    have : (3 : ℚ) ≤ (N : ℚ) := by exact_mod_cast hN
    linarith
  have hcne : c ≠ 0 := by
    rw [hc]
    exact div_ne_zero hnu (pow_ne_zero 2 (div_ne_zero (ne_of_gt hL) hcast))
  have h10 : apply_dirichlet N (smul_mat c stencil) 1 0 = c := by
    rw [apply_dirichlet_interior N _ 1 0 (by omega) (by omega)]
    unfold smul_mat stencil
    norm_num
  have hN2 : apply_dirichlet N (smul_mat c stencil) (N - 2) (N - 1) = c := by
    rw [apply_dirichlet_interior N _ (N - 2) (N - 1) (by omega) (by omega)]
    unfold smul_mat stencil
    have h1 : ¬ N - 2 = N - 1 := by omega
    have h2 : N - 2 + 1 = N - 1 ∨ (N - 1) + 1 = N - 2 := by omega
    rw [if_neg h1, if_pos h2, mul_one]
  have h01 : apply_dirichlet N (smul_mat c stencil) 0 1 = 0 := by
    unfold apply_dirichlet set_unit_row
    have h1 : (0 : ℕ) ≠ N - 1 := by omega
    simp [h1]
  exact ⟨h10, hN2, by rw [h10]; exact hcne, by rw [h01, h10]; exact fun h => hcne h.symm⟩

/-- The operator built at `N = 4`, `L = 1`, `nu = 1`, extracted from the
successful branch of `build_1d_operator`. -/
def A4 : Mat := (build_1d_operator 4 1 1).toOption.getD (fun _ _ => 0)

/-- Witness for C5 at `N = 4`, `L = 1`, `nu = 1`, interior row `i = 1`. -/
theorem build_1d_operator_interior_stencil_witness :
    A4 1 1 = -2 * ((1 : ℚ) / ((1 : ℚ) / (((4 : ℕ) : ℚ) - 1)) ^ 2) ∧
    ∑ j in Finset.range 4, A4 1 j = 0 := by
  have h := build_1d_operator_interior_stencil 4 1 1 1 A4
    (by norm_num) (by norm_num) (by norm_num) (by norm_num) rfl
  exact ⟨h.1, h.2.2.2.2⟩

/-- Witness for C10 at `N = 4`, `L = 1`, `nu = 1`. -/
theorem build_1d_operator_row_only_decoupling_witness :
    A4 1 0 = (1 : ℚ) / ((1 : ℚ) / (((4 : ℕ) : ℚ) - 1)) ^ 2 ∧ A4 0 1 ≠ A4 1 0 := by
  have h := build_1d_operator_row_only_decoupling 4 1 1 A4
    (by norm_num) (by norm_num) (by norm_num) rfl
  exact ⟨h.1, h.2.2.2⟩

/-- C2 (amended): `build_1d_operator` performs no parameter validation —
no input produces an `InvalidGridError`, and every `N ≥ 2` with `L ≠ 0`
(positive or not) yields an operator without raising. -/
theorem build_1d_operator_no_validation (N : ℕ) (L nu : ℚ) :
    build_1d_operator N L nu ≠ Except.error PyError.invalidGridError ∧
    (2 ≤ N → L ≠ 0 → ∃ A, build_1d_operator N L nu = Except.ok A) := by
  unfold build_1d_operator
  constructor
  · by_cases h1 : N = 1 <;> by_cases h0 : N = 0 <;> by_cases hL : L = 0 <;>
      simp [h1, h0, hL]
  · intro hN hL
    have h1 : N ≠ 1 := by omega
    have h0 : N ≠ 0 := by omega
    rw [if_neg h1, if_neg h0, if_neg hL]
    exact ⟨_, rfl⟩

/-- Witness for C2's amended theorem at `N = 3`, `L = 2`, `nu = 1`. -/
theorem build_1d_operator_no_validation_witness :
    ∃ A, build_1d_operator 3 2 1 = Except.ok A :=
  (build_1d_operator_no_validation 3 2 1).2 (by norm_num) (by norm_num)

/-- The operator built at `N = 3`, `L = -1`, `nu = 1`, extracted from the
successful branch of `build_1d_operator`. -/
def A3neg : Mat := (build_1d_operator 3 (-1) 1).toOption.getD (fun _ _ => 0)

/-- Counterexample to C2 as stated: at `N = 3` and `L = -1 ≤ 0` the build
succeeds and returns an operator — no `InvalidGridError` is raised. -/
theorem build_1d_operator_accepts_nonpositive_L :
    build_1d_operator 3 (-1) 1 = Except.ok A3neg := rfl

/-- An `eigs` implementation that always fails to converge, leaving the
matrix untouched. -/
def eigs_noconv : Mat → ℕ → EigsResult × Mat := fun A _ =>
  (Except.error "ArpackNoConvergence", A)

/-- An `eigs` implementation that converges to an empty spectrum, leaving
the matrix untouched. -/
def eigs_empty : Mat → ℕ → EigsResult × Mat := fun A _ =>
  (Except.ok [], A)

/-- Counterexample to C1 as stated: on a convergence failure,
`run_arnoldi_solver` returns `None` — it does not propagate any error. -/
theorem run_arnoldi_solver_swallows_failure :
    run_arnoldi_solver eigs_noconv stencil 4 = (none, stencil) := rfl

/-- C1 (amended): whenever the external eigensolver fails (for any
exception, convergence failure included), `run_arnoldi_solver` catches the
exception and returns `None` to the caller; no error propagates. -/
theorem run_arnoldi_solver_none_on_failure
    (eigs : Mat → ℕ → EigsResult × Mat) (A A2 : Mat) (k : ℕ) (msg : String)
    (h : eigs A k = (Except.error msg, A2)) :
    run_arnoldi_solver eigs A k = (none, A2) := by
  unfold run_arnoldi_solver
  rw [h]

/-- Witness for C1's amended theorem. -/
theorem run_arnoldi_solver_none_on_failure_witness :
    run_arnoldi_solver eigs_noconv (smul_mat 2 stencil) 3 = (none, smul_mat 2 stencil) :=
  run_arnoldi_solver_none_on_failure eigs_noconv (smul_mat 2 stencil) (smul_mat 2 stencil)
    3 "ArpackNoConvergence" rfl

/-- C3: no mode in the visible spectrum has a growth rate within `1e-4` of
`1.0` — the boundary-artifact filter removes all such eigenvalues. -/
theorem visible_spectrum_excludes_artifact (vals : List Cplx) (m : Eigenmode)
    (hm : m ∈ visible_spectrum vals) :
    ¬ |m.sigma_r - 1| ≤ 1 / 10000 := by
  unfold visible_spectrum at hm
  simp only [List.mem_map] at hm
  obtain ⟨p, hp, hpm⟩ := hm
  rw [List.mem_filter] at hp
  have hlt := of_decide_eq_true hp.2
  rw [← hpm]
  exact not_le.mpr hlt

/-- Witness for C3: the eigenvalue `-5 + 0i` survives the filter and its
growth rate is not within `1e-4` of `1.0`. -/
theorem visible_spectrum_excludes_artifact_witness :
    (⟨0, -5, 0, Stability.STABLE⟩ : Eigenmode) ∈ visible_spectrum [⟨-5, 0⟩] ∧
    ¬ |(⟨0, -5, 0, Stability.STABLE⟩ : Eigenmode).sigma_r - 1| ≤ 1 / 10000 := by
  have hmem : (⟨0, -5, 0, Stability.STABLE⟩ : Eigenmode) ∈ visible_spectrum [⟨-5, 0⟩] := by
    have h : visible_spectrum [⟨-5, 0⟩] = [⟨0, -5, 0, Stability.STABLE⟩] := by
      unfold visible_spectrum classify
      norm_num [List.enum, List.filter]
    rw [h]
    exact List.mem_singleton.mpr rfl
  exact ⟨hmem, visible_spectrum_excludes_artifact [⟨-5, 0⟩] ⟨0, -5, 0, Stability.STABLE⟩ hmem⟩

/-- C6: for every mode in the visible spectrum, the label is determined
solely by the sign of the growth rate: `STABLE` iff it is negative,
`UNSTABLE` iff it is nonnegative (zero included). -/
theorem visible_spectrum_classification (vals : List Cplx) (m : Eigenmode)
    (hm : m ∈ visible_spectrum vals) :
    (m.status = Stability.STABLE ↔ m.sigma_r < 0) ∧
    (m.status = Stability.UNSTABLE ↔ 0 ≤ m.sigma_r) := by
  unfold visible_spectrum at hm
  simp only [List.mem_map] at hm
  obtain ⟨p, _, hpm⟩ := hm
  rw [← hpm]
  unfold classify
  by_cases h : p.2.re < 0
  · rw [if_pos h]
    constructor
    · exact ⟨fun _ => h, fun _ => rfl⟩
    · exact ⟨fun hc => absurd hc (by simp), fun hc => absurd h (not_lt.mpr hc)⟩
  · rw [if_neg h]
    constructor
    · exact ⟨fun hc => absurd hc (by simp), fun hc => absurd hc h⟩
    · exact ⟨fun _ => not_lt.mp h, fun _ => rfl⟩

/-- Witness for C6: the eigenvalue `0 + 0i` (marginal mode) is kept and
classified `UNSTABLE`, per the threshold-at-zero convention. -/
theorem visible_spectrum_classification_witness :
    (⟨0, 0, 0, Stability.UNSTABLE⟩ : Eigenmode) ∈ visible_spectrum [⟨0, 0⟩] ∧
    ((⟨0, 0, 0, Stability.UNSTABLE⟩ : Eigenmode).status = Stability.UNSTABLE ↔
      (0 : ℚ) ≤ (⟨0, 0, 0, Stability.UNSTABLE⟩ : Eigenmode).sigma_r) := by
  have hmem : (⟨0, 0, 0, Stability.UNSTABLE⟩ : Eigenmode) ∈ visible_spectrum [⟨0, 0⟩] := by
    have h : visible_spectrum [⟨0, 0⟩] = [⟨0, 0, 0, Stability.UNSTABLE⟩] := by
      unfold visible_spectrum classify
      norm_num [List.enum, List.filter]
    rw [h]
    exact List.mem_singleton.mpr rfl
  exact ⟨hmem, (visible_spectrum_classification [⟨0, 0⟩] ⟨0, 0, 0, Stability.UNSTABLE⟩ hmem).2⟩

/-- C8: the pipeline is deterministic — its result is a function of
`(N, L, nu, k)` and the eigensolver implementation alone: two runs with
extensionally equal eigensolvers return identical results. -/
theorem pipeline_deterministic (e1 e2 : Mat → ℕ → EigsResult × Mat)
    (h : ∀ A k, e1 A k = e2 A k) (N : ℕ) (L nu : ℚ) (k : ℕ) :
    pipeline e1 N L nu k = pipeline e2 N L nu k := by
  have hs : ∀ A, run_arnoldi_solver e1 A k = run_arnoldi_solver e2 A k := by
    intro A
    unfold run_arnoldi_solver
    rw [h A k]
  unfold pipeline
  cases build_1d_operator N L nu with
  | ok A =>
    show Except.ok (run_arnoldi_solver e1 A k).1 = Except.ok (run_arnoldi_solver e2 A k).1
    rw [hs A]
  | error e => rfl

/-- Witness for C8. -/
theorem pipeline_deterministic_witness :
    pipeline eigs_empty 3 1 1 2 = pipeline eigs_empty 3 1 1 2 :=
  pipeline_deterministic eigs_empty eigs_empty (fun _ _ => rfl) 3 1 1 2

/-- C9: `run_arnoldi_solver` does not mutate its input operator — given a
read-only eigensolver (as `scipy.sparse.linalg.eigs` is), the matrix after
the call equals the matrix before it, on success and on failure alike. -/
theorem run_arnoldi_solver_no_mutation (eigs : Mat → ℕ → EigsResult × Mat)
    (hro : ∀ A k, (eigs A k).2 = A) (A : Mat) (k : ℕ) :
    (run_arnoldi_solver eigs A k).2 = A := by
  unfold run_arnoldi_solver
  have h := hro A k
  rcases heq : eigs A k with ⟨r, A2⟩
  rw [heq] at h
  cases r <;> simpa using h

/-- Witness for C9. -/
theorem run_arnoldi_solver_no_mutation_witness :
    (run_arnoldi_solver eigs_empty stencil 4).2 = stencil :=
  run_arnoldi_solver_no_mutation eigs_empty (fun _ _ => rfl) stencil 4

end ShearLayer
